import Mathlib

/-!
Verification of the assignment/progress synchronization subsystem of a
classroom learning-management application (`app.py`).

The relational store is embedded shallowly: each table is a list of rows,
uniqueness constraints become guarded inserts (`INSERT OR IGNORE` is
"insert if no row with the same unique key exists"), and each write path
of the application becomes a Lean function from database state to
database state.  Timestamps are natural numbers; quiz scores, ids and
dates are integers/naturals.  Only the tables touched by the
synchronization subsystem are modelled: classroom memberships,
assignments, progress records, assignment submissions, and stream posts
(the users table is reduced to the streak fields, which no other
operation reads).
-/

/-- Status of an assignment submission (`status` column, values
`'assigned'` and `'completed'`). -/
inductive SubStatus where
  | assigned
  | completed
deriving DecidableEq, Repr

/-- A row of `classroom_students` (the `(classroom_id, student_id)` unique
pair; `joined_at` is irrelevant to every query modelled here). -/
structure ClassMembership where
  classroomId : Nat
  studentId : Nat
deriving DecidableEq, Repr

/-- A row of `assignments`. -/
structure Assignment where
  id : Nat
  classroomId : Nat
  lessonId : Nat
  lessonLang : String
deriving DecidableEq, Repr

/-- A row of `progress` (unique on `(student_id, lesson_id, lesson_lang)`). -/
structure ProgressRecord where
  studentId : Nat
  lessonId : Nat
  lessonLang : String
  completedAt : Nat
  score : Nat
  xp : Nat
deriving DecidableEq, Repr

/-- A row of `assignment_submissions` (unique on
`(assignment_id, student_id)`). -/
structure Submission where
  assignmentId : Nat
  studentId : Nat
  status : SubStatus
  completedAt : Option Nat
  score : Option Nat
  gradeOutOf10 : Option Int
deriving DecidableEq, Repr

/-- A row of `stream_posts`. -/
structure StreamPost where
  classroomId : Nat
  authorId : Nat
  kind : String
  audience : String
  studentId : Option Nat
  createdAt : Nat
deriving DecidableEq, Repr

/-- The relational store, restricted to the tables the synchronization
subsystem reads or writes. -/
structure DB where
  memberships : List ClassMembership
  assignments : List Assignment
  progress : List ProgressRecord
  submissions : List Submission
deriving DecidableEq, Repr

/-- `SELECT score FROM progress WHERE student_id = ? AND lesson_lang = ?
AND lesson_id = ?` — the progress lookup every reconciliation path runs
(the unique constraint makes at most one row match). -/
def findProgress (db : DB) (sid : Nat) (lid : Nat) (lang : String) :
    Option ProgressRecord :=
  db.progress.find? fun p =>
    p.studentId == sid && p.lessonLang == lang && p.lessonId == lid

/-- Whether a submission row with the unique key
`(assignment_id, student_id)` exists; this is the conflict test of
`INSERT OR IGNORE INTO assignment_submissions`. -/
def submissionExists (db : DB) (aid : Nat) (sid : Nat) : Bool :=
  db.submissions.any fun s => s.assignmentId == aid && s.studentId == sid

/-- Whether a `(classroom_id, student_id)` membership row exists; the
conflict test of `INSERT OR IGNORE INTO classroom_students`. -/
def memberExists (db : DB) (cid : Nat) (sid : Nat) : Bool :=
  db.memberships.any fun m => m.classroomId == cid && m.studentId == sid

/-- Whether a classroom has at least one member — the effect of the
unrestricted `JOIN classroom_students cs ON cs.classroom_id =
a.classroom_id` in `_complete_assignment_if_any`. -/
def classroomHasMember (db : DB) (cid : Nat) : Bool :=
  db.memberships.any fun m => m.classroomId == cid

/-- The shared body of the submission-creating reconciliation paths
(`ensure_assignment_submissions` and both join handlers compute
`status`/`completed_at`/`score` from the progress lookup and then run
`INSERT OR IGNORE INTO assignment_submissions`).  Note that
`completed_at` is set to `now_ts()` at reconciliation time, and `score`
is copied from the progress row; `grade_out_of_10` is absent from the
insert, i.e. NULL. -/
def insertSubmissionIfAbsent (db : DB) (aid : Nat) (sid : Nat)
    (lang : String) (lid : Nat) (now : Nat) : DB :=
  let existing := findProgress db sid lid lang
  let status := if existing.isSome then SubStatus.completed else SubStatus.assigned
  let completedAt := if existing.isSome then some now else none
  let score := existing.map (·.score)
  if submissionExists db aid sid then db
  else { db with submissions :=
          db.submissions ++ [⟨aid, sid, status, completedAt, score, none⟩] }

/-- One row of work for `insertSubmissionIfAbsent`: which
`(assignment, student)` pair to reconcile and which lesson the
assignment refers to. -/
structure SubKeySpec where
  assignmentId : Nat
  studentId : Nat
  lessonLang : String
  lessonId : Nat
deriving DecidableEq, Repr

/-- Run `insertSubmissionIfAbsent` over a batch of rows — the loop shape
shared by `ensure_assignment_submissions` (one row per classroom member)
and the two join handlers (one row per classroom assignment). -/
def insertAll (rows : List SubKeySpec) (now : Nat) (db : DB) : DB :=
  rows.foldl
    (fun d r => insertSubmissionIfAbsent d r.assignmentId r.studentId
      r.lessonLang r.lessonId now) db

/-- `ensure_assignment_submissions(assignment_id, classroom_id,
lesson_lang, lesson_id)`: for every current member of the classroom,
insert-if-absent a submission row whose fields are derived from the
member's progress on the assignment's lesson. -/
def ensure_assignment_submissions (aid : Nat) (cid : Nat) (lang : String)
    (lid : Nat) (now : Nat) (db : DB) : DB :=
  let students :=
    (db.memberships.filter fun m => m.classroomId == cid).map (·.studentId)
  insertAll (students.map fun sid => ⟨aid, sid, lang, lid⟩) now db

/-- The classroom-join body shared verbatim by the POST branch of
`student_classroom` and by `join_class_by_code` (the latter resolves the
class code to a classroom first; here the caller passes the resolved
classroom id): `INSERT OR IGNORE` the membership, then for every
assignment of the classroom insert-if-absent a submission row derived
from the joining student's progress. -/
def joinClassroomCore (cid : Nat) (sid : Nat) (now : Nat) (db : DB) : DB :=
  let db1 :=
    if memberExists db cid sid then db
    else { db with memberships := db.memberships ++ [⟨cid, sid⟩] }
  let asgs := db1.assignments.filter fun a => a.classroomId == cid
  insertAll (asgs.map fun a => ⟨a.id, sid, a.lessonLang, a.lessonId⟩) now db1

/-- The POST branch of `student_classroom` (join by entering a class
code). -/
def student_classroom_join (cid : Nat) (sid : Nat) (now : Nat) (db : DB) : DB :=
  joinClassroomCore cid sid now db

/-- `join_class_by_code` (join via a share link; its reconciliation body
is identical to the `student_classroom` POST branch). -/
def join_class_by_code (cid : Nat) (sid : Nat) (now : Nat) (db : DB) : DB :=
  joinClassroomCore cid sid now db

/-- The `WHERE` clause of the `SELECT` in `_complete_assignment_if_any`:
the submission belongs to the current user, its assignment is for the
just-passed lesson, it is not yet completed, and the join to
`classroom_students` (on classroom only) finds at least one member. -/
def submissionMatchesCompletion (db : DB) (uid : Nat) (lang : String)
    (lid : Nat) (s : Submission) : Bool :=
  s.studentId == uid && !(s.status == SubStatus.completed) &&
    db.assignments.any (fun a =>
      a.id == s.assignmentId && a.lessonId == lid && a.lessonLang == lang &&
        classroomHasMember db a.classroomId)

/-- `_complete_assignment_if_any(user_id, lang_id, lesson_id, score)`:
update every selected submission to `status = 'completed'`,
`completed_at = now_ts()`, `score = score`; returns whether any row was
updated. -/
def complete_assignment_if_any (uid : Nat) (lang : String) (lid : Nat)
    (score : Nat) (now : Nat) (db : DB) : DB × Bool :=
  let matched := db.submissions.filter (submissionMatchesCompletion db uid lang lid)
  let subs := db.submissions.map fun s =>
    if submissionMatchesCompletion db uid lang lid s then
      { s with status := SubStatus.completed, completedAt := some now,
               score := some score }
    else s
  ({ db with submissions := subs }, !matched.isEmpty)

/-- The database write path of `grade_quiz` after the quiz has been
scored: if the score passes the fixed 70 threshold and the student has
no progress row for the lesson yet, insert the progress row and run
`_complete_assignment_if_any` (the `update_streak` call in between only
touches the user's streak fields, modelled separately). -/
def grade_quiz_sync (uid : Nat) (lang : String) (lid : Nat) (score : Nat)
    (xp : Nat) (now : Nat) (db : DB) : DB :=
  if 70 ≤ score ∧ findProgress db uid lid lang = none then
    let db1 := { db with progress := db.progress ++ [⟨uid, lid, lang, now, score, xp⟩] }
    (complete_assignment_if_any uid lang lid score now db1).1
  else db

/-- `teacher_create_assignment`: insert the assignment row (with the
fresh id handed out by the store) and immediately run
`ensure_assignment_submissions` for it; the notification and stream-post
fan-out touches no table modelled in `DB`. -/
def teacher_create_assignment (aid : Nat) (cid : Nat) (lid : Nat)
    (lang : String) (now : Nat) (db : DB) : DB :=
  let db1 := { db with assignments := db.assignments ++ [⟨aid, cid, lid, lang⟩] }
  ensure_assignment_submissions aid cid lang lid now db1

/-- Outcome of the teacher grading request, mirroring the early returns
of `teacher_grade_submission`. -/
inductive GradeOutcome where
  | validationFailed
  | notFound
  | ok
deriving DecidableEq, Repr

/-- `teacher_grade_submission`: the grade form value is `none` when it
does not parse as an integer (`int(grade)` raising), otherwise
`some v`.  Validation (parse, then the 0–10 range check) happens before
the database is read; then the submission is fetched through a join to
`assignments` (here: by its unique `(assignment_id, student_id)` key
plus existence of the assignment row) and only its `grade_out_of_10`
column is updated. -/
def teacher_grade_submission (aid : Nat) (sid : Nat) (grade : Option Int)
    (db : DB) : DB × GradeOutcome :=
  match grade with
  | none => (db, GradeOutcome.validationFailed)
  | some v =>
    if v < 0 ∨ 10 < v then (db, GradeOutcome.validationFailed)
    else if submissionExists db aid sid &&
        db.assignments.any (fun a => a.id == aid) then
      ({ db with submissions := db.submissions.map fun s =>
          if s.assignmentId == aid && s.studentId == sid then
            { s with gradeOutOf10 := some v }
          else s },
       GradeOutcome.ok)
    else (db, GradeOutcome.notFound)

/-- The status of the submission row for a key, as read by the
`LEFT JOIN assignment_submissions` in the `student_classroom` GET
query (`none` when no row exists). -/
def submissionStatusOf (db : DB) (aid : Nat) (sid : Nat) : Option SubStatus :=
  (db.submissions.find? fun s =>
    s.assignmentId == aid && s.studentId == sid).map (·.status)

/-- The `INSERT ... ON CONFLICT(assignment_id, student_id) DO UPDATE`
upsert of the `student_classroom` GET backfill. -/
def upsertCompletedSubmission (db : DB) (aid : Nat) (sid : Nat)
    (now : Nat) (score : Nat) : DB :=
  if submissionExists db aid sid then
    { db with submissions := db.submissions.map fun s =>
        if s.assignmentId == aid && s.studentId == sid then
          { s with status := SubStatus.completed, completedAt := some now,
                   score := some score }
        else s }
  else
    { db with submissions :=
        db.submissions ++ [⟨aid, sid, SubStatus.completed, some now, some score, none⟩] }

/-- The backfill loop of the `student_classroom` GET handler: over the
snapshot of the student's visible assignments (with their submission
status as read by the `LEFT JOIN`), upsert a completed row for every
not-yet-completed assignment whose lesson the student has passed. -/
def student_classroom_backfill (uid : Nat) (now : Nat) (db : DB) : DB :=
  let rows := (db.assignments.filter fun a => memberExists db a.classroomId uid).map
    fun a => (a, submissionStatusOf db a.id uid)
  rows.foldl
    (fun d row =>
      if row.2 = some SubStatus.completed then d
      else
        match findProgress db uid row.1.lessonId row.1.lessonLang with
        | some p => upsertCompletedSubmission d row.1.id uid now p.score
        | none => d)
    db

/-- `update_streak`, as a pure function of the user's stored
`(streak_count, last_active_date)` and today's date (dates are modelled
as integer day numbers; `today - timedelta(days=1)` is `today - 1`).
Returns the new `(streak_count, last_active_date)`. -/
def update_streak (streak : Nat) (lastActive : Option Int) (today : Int) :
    Nat × Int :=
  let newStreak :=
    if lastActive = some today then streak
    else if lastActive = some (today - 1) then streak + 1
    else 1
  (newStreak, today)

/-- The streak counters produced by running `update_streak` over a
sequence of completion dates from a given stored state. -/
def streakStates (st : Nat × Option Int) : List Int → List Nat
  | [] => []
  | d :: ds =>
      let next := update_streak st.1 st.2 d
      next.1 :: streakStates (next.1, some next.2) ds

/-- The streak counters produced by a sequence of completion dates,
starting from the schema defaults `streak_count = 0`,
`last_active_date = NULL`. -/
def streakTrace (dates : List Int) : List Nat :=
  streakStates (0, none) dates

/-- The `WHERE` clause of `get_stream_posts_for_student`: the post is in
one of the student's classrooms, is class-audience or addressed to the
student, and is not a class-audience grade post. -/
def streamPostVisible (classroomIds : List Nat) (sid : Nat) (p : StreamPost) :
    Bool :=
  classroomIds.contains p.classroomId &&
    (p.audience == "class" || (p.audience == "student" && p.studentId == some sid)) &&
    !(p.kind == "grade" && p.audience == "class")

/-- Descending creation-time order used by the feed (`ORDER BY
p.created_at DESC`). -/
def postLe (a b : StreamPost) : Prop :=
  b.createdAt ≤ a.createdAt

instance : DecidableRel postLe := fun a b =>
  inferInstanceAs (Decidable (b.createdAt ≤ a.createdAt))

instance : IsTotal StreamPost postLe :=
  ⟨fun a b => (le_total b.createdAt a.createdAt).elim Or.inl Or.inr⟩

instance : IsTrans StreamPost postLe :=
  ⟨fun _ _ _ hab hbc => le_trans hbc hab⟩

/-- `get_stream_posts_for_student(classroom_ids, student_id)`: early
return `[]` on an empty classroom list, else filter, order by creation
time descending, `LIMIT 30`. -/
def get_stream_posts_for_student (posts : List StreamPost)
    (classroomIds : List Nat) (sid : Nat) : List StreamPost :=
  if classroomIds.isEmpty then []
  else ((posts.filter (streamPostVisible classroomIds sid)).insertionSort postLe).take 30

/-- A quiz question as stored in the lesson content (only the reference
answer matters to grading). -/
structure QuizQuestion where
  question : String
  choices : List String
  answer : String
deriving DecidableEq, Repr

/-- The number of correct answers counted by the `grade_quiz` loop: the
form value `q{idx}` (`none` when the field is missing) must equal the
question's reference answer. -/
def countCorrect (quiz : List QuizQuestion) (form : Nat → Option String) : Nat :=
  (quiz.enum.filter fun iq => form iq.1 == some iq.2.answer).length

/-- Bit length of a natural number; the fuel argument bounds the
recursion depth so the function is structurally recursive and reduces in
the kernel (`bitLen fuel n` is the number of binary digits of `n`
whenever `fuel` is at least that number). -/
def bitLen : Nat → Nat → Nat
  | 0, _ => 0
  | fuel + 1, n => if n = 0 then 0 else bitLen fuel (n / 2) + 1

/-- Decide `num < 2 ^ e * den` for an integer exponent `e`. -/
def ltPow2Mul (num den : Nat) (e : Int) : Bool :=
  if 0 ≤ e then num < 2 ^ e.toNat * den
  else 2 ^ (-e).toNat * num < den

/-- A nonnegative IEEE-754 binary64 (double) value in the normal range,
represented exactly as `mant * 2 ^ exp` with `mant < 2 ^ 53`.  Every
value arising in the quiz-score computation is in this range. -/
structure B64 where
  mant : Nat
  exp : Int
deriving DecidableEq, Repr

/-- Round the nonnegative rational `num / den` (`den ≠ 0`) to the
nearest binary64 value, ties to even — the rounding IEEE-754 prescribes
and CPython performs both for the true division `correct_count / total`
and for the multiplication by 100. -/
def roundB64 (num den : Nat) : B64 :=
  if num = 0 then ⟨0, 0⟩
  else
    let e0 : Int := (bitLen 1100 num : Int) - (bitLen 1100 den : Int)
    let e : Int := if ltPow2Mul num den e0 then e0 - 1 else e0
    let sh : Int := 52 - e
    let N := if 0 ≤ sh then num * 2 ^ sh.toNat else num
    let D := if 0 ≤ sh then den else den * 2 ^ (-sh).toNat
    let q := N / D
    let r := N % D
    let m := if 2 * r < D then q
      else if D < 2 * r then q + 1
      else if q % 2 = 0 then q else q + 1
    if m = 2 ^ 53 then ⟨2 ^ 52, e - 51⟩ else ⟨m, e - 52⟩

/-- Correctly rounded product of a binary64 value and a natural number
(the `* 100` of the score expression; 100 is exactly representable). -/
def b64MulNat (x : B64) (k : Nat) : B64 :=
  if 0 ≤ x.exp then roundB64 (x.mant * k * 2 ^ x.exp.toNat) 1
  else roundB64 (x.mant * k) (2 ^ (-x.exp).toNat)

/-- Truncation toward zero of a nonnegative binary64 value — Python's
`int(...)` applied to a nonnegative float. -/
def b64ToNat (x : B64) : Nat :=
  if 0 ≤ x.exp then x.mant * 2 ^ x.exp.toNat
  else x.mant / 2 ^ (-x.exp).toNat

/-- The score computation of `grade_quiz`:
`int((correct_count / total) * 100)` with `total = len(quiz)`, evaluated
as CPython does — `correct_count / total` is the correctly rounded
binary64 quotient, the product with 100.0 is again correctly rounded,
and `int` truncates.  The expression divides by zero when the quiz is
empty — modelled as `none`. -/
def grade_quiz_score (quiz : List QuizQuestion) (form : Nat → Option String) :
    Option Nat :=
  let total := quiz.length
  if total = 0 then none
  else some (b64ToNat (b64MulNat (roundB64 (countCorrect quiz form) total) 100))

/-! ### Basic facts about the embedded operations -/

theorem insertSubmissionIfAbsent_memberships (db : DB) (aid sid : Nat)
    (lang : String) (lid now : Nat) :
    (insertSubmissionIfAbsent db aid sid lang lid now).memberships = db.memberships := by
  unfold insertSubmissionIfAbsent
  split <;> rfl

theorem insertSubmissionIfAbsent_assignments (db : DB) (aid sid : Nat)
    (lang : String) (lid now : Nat) :
    (insertSubmissionIfAbsent db aid sid lang lid now).assignments = db.assignments := by
  unfold insertSubmissionIfAbsent
  split <;> rfl

theorem insertSubmissionIfAbsent_progress (db : DB) (aid sid : Nat)
    (lang : String) (lid now : Nat) :
    (insertSubmissionIfAbsent db aid sid lang lid now).progress = db.progress := by
  unfold insertSubmissionIfAbsent
  split <;> rfl

theorem insertAll_memberships (rows : List SubKeySpec) (now : Nat) (db : DB) :
    (insertAll rows now db).memberships = db.memberships := by
  induction rows generalizing db with
  | nil => rfl
  | cons r rs ih =>
      simp only [insertAll, List.foldl_cons] at ih ⊢
      rw [ih, insertSubmissionIfAbsent_memberships]

theorem insertAll_assignments (rows : List SubKeySpec) (now : Nat) (db : DB) :
    (insertAll rows now db).assignments = db.assignments := by
  induction rows generalizing db with
  | nil => rfl
  | cons r rs ih =>
      simp only [insertAll, List.foldl_cons] at ih ⊢
      rw [ih, insertSubmissionIfAbsent_assignments]

theorem insertAll_progress (rows : List SubKeySpec) (now : Nat) (db : DB) :
    (insertAll rows now db).progress = db.progress := by
  induction rows generalizing db with
  | nil => rfl
  | cons r rs ih =>
      simp only [insertAll, List.foldl_cons] at ih ⊢
      rw [ih, insertSubmissionIfAbsent_progress]

theorem insertSubmissionIfAbsent_submissions_extend (db : DB) (aid sid : Nat)
    (lang : String) (lid now : Nat) :
    ∃ extra, (insertSubmissionIfAbsent db aid sid lang lid now).submissions
        = db.submissions ++ extra ∧ ∀ s ∈ extra, s.gradeOutOf10 = none := by
  unfold insertSubmissionIfAbsent
  split
  · exact ⟨[], by simp⟩
  · exact ⟨_, rfl, by simp⟩

theorem insertAll_submissions_extend (rows : List SubKeySpec) (now : Nat) (db : DB) :
    ∃ extra, (insertAll rows now db).submissions = db.submissions ++ extra ∧
      ∀ s ∈ extra, s.gradeOutOf10 = none := by
  induction rows generalizing db with
  | nil => exact ⟨[], by simp [insertAll]⟩
  | cons r rs ih =>
      obtain ⟨e1, he1, hg1⟩ := insertSubmissionIfAbsent_submissions_extend db
        r.assignmentId r.studentId r.lessonLang r.lessonId now
      obtain ⟨e2, he2, hg2⟩ := ih (insertSubmissionIfAbsent db r.assignmentId
        r.studentId r.lessonLang r.lessonId now)
      refine ⟨e1 ++ e2, ?_, ?_⟩
      · simp only [insertAll, List.foldl_cons] at he2 ⊢
        rw [he2, he1, List.append_assoc]
      · intro s hs
        rcases List.mem_append.mp hs with h | h
        · exact hg1 s h
        · exact hg2 s h

theorem mem_insertAll_submissions {db : DB} {s : Submission}
    (rows : List SubKeySpec) (now : Nat) (hs : s ∈ db.submissions) :
    s ∈ (insertAll rows now db).submissions := by
  obtain ⟨e, he, -⟩ := insertAll_submissions_extend rows now db
  rw [he]
  exact List.mem_append_left _ hs

theorem submissionExists_insertAll {db : DB} {aid sid : Nat}
    (rows : List SubKeySpec) (now : Nat)
    (h : submissionExists db aid sid = true) :
    submissionExists (insertAll rows now db) aid sid = true := by
  obtain ⟨e, he, -⟩ := insertAll_submissions_extend rows now db
  unfold submissionExists at h ⊢
  rw [he, List.any_append, h, Bool.true_or]

theorem submissionExists_insertSubmissionIfAbsent_self (db : DB) (aid sid : Nat)
    (lang : String) (lid now : Nat) :
    submissionExists (insertSubmissionIfAbsent db aid sid lang lid now) aid sid = true := by
  unfold insertSubmissionIfAbsent
  split
  · assumption
  · unfold submissionExists
    simp

theorem insertSubmissionIfAbsent_of_exists {db : DB} {aid sid : Nat}
    (lang : String) (lid now : Nat)
    (h : submissionExists db aid sid = true) :
    insertSubmissionIfAbsent db aid sid lang lid now = db := by
  unfold insertSubmissionIfAbsent
  simp [h]

theorem submissionExists_insertAll_of_mem {rows : List SubKeySpec} {r : SubKeySpec}
    (hr : r ∈ rows) (now : Nat) (db : DB) :
    submissionExists (insertAll rows now db) r.assignmentId r.studentId = true := by
  induction rows generalizing db with
  | nil => cases hr
  | cons x xs ih =>
      simp only [insertAll, List.foldl_cons]
      rcases List.mem_cons.mp hr with h | h
      · subst h
        exact submissionExists_insertAll xs now
          (submissionExists_insertSubmissionIfAbsent_self db r.assignmentId
            r.studentId r.lessonLang r.lessonId now)
      · exact ih h _

theorem insertAll_no_op {rows : List SubKeySpec} {db : DB} (now : Nat)
    (h : ∀ r ∈ rows, submissionExists db r.assignmentId r.studentId = true) :
    insertAll rows now db = db := by
  induction rows with
  | nil => rfl
  | cons x xs ih =>
      simp only [insertAll, List.foldl_cons]
      rw [insertSubmissionIfAbsent_of_exists _ _ _ (h x (List.mem_cons_self x xs))]
      exact ih fun r hr => h r (List.mem_cons_of_mem x hr)

theorem joinClassroomCore_assignments (cid sid now : Nat) (db : DB) :
    (joinClassroomCore cid sid now db).assignments = db.assignments := by
  unfold joinClassroomCore
  rw [insertAll_assignments]
  split <;> rfl

theorem joinClassroomCore_progress (cid sid now : Nat) (db : DB) :
    (joinClassroomCore cid sid now db).progress = db.progress := by
  unfold joinClassroomCore
  rw [insertAll_progress]
  split <;> rfl

theorem joinClassroomCore_memberships (cid sid now : Nat) (db : DB) :
    (joinClassroomCore cid sid now db).memberships =
      (if memberExists db cid sid then db.memberships
        else db.memberships ++ [⟨cid, sid⟩]) := by
  unfold joinClassroomCore
  rw [insertAll_memberships]
  split <;> simp_all

theorem memberExists_joinClassroomCore_self (cid sid now : Nat) (db : DB) :
    memberExists (joinClassroomCore cid sid now db) cid sid = true := by
  unfold memberExists
  rw [joinClassroomCore_memberships]
  split
  · assumption
  · simp

theorem memberExists_congr {d db : DB} (h : d.memberships = db.memberships)
    (cid sid : Nat) : memberExists d cid sid = memberExists db cid sid := by
  unfold memberExists
  rw [h]

theorem ensure_assignment_submissions_idem (aid cid : Nat) (lang : String)
    (lid t1 t2 : Nat) (db : DB) :
    ensure_assignment_submissions aid cid lang lid t2
        (ensure_assignment_submissions aid cid lang lid t1 db)
      = ensure_assignment_submissions aid cid lang lid t1 db := by
  unfold ensure_assignment_submissions
  rw [insertAll_memberships]
  apply insertAll_no_op
  intro r hr
  exact submissionExists_insertAll_of_mem hr t1 db

theorem joinClassroomCore_no_op {X : DB} (cid sid t2 : Nat)
    (hm : memberExists X cid sid = true)
    (hs : ∀ a ∈ X.assignments.filter (fun a => a.classroomId == cid),
      submissionExists X a.id sid = true) :
    joinClassroomCore cid sid t2 X = X := by
  unfold joinClassroomCore
  simp only [hm, if_true]
  apply insertAll_no_op
  intro r hr
  rw [List.mem_map] at hr
  obtain ⟨a, ha, rfl⟩ := hr
  exact hs a ha

theorem submissionExists_joinClassroomCore {db : DB} {a : Assignment}
    (cid sid t1 : Nat)
    (ha : a ∈ db.assignments.filter fun x => x.classroomId == cid) :
    submissionExists (joinClassroomCore cid sid t1 db) a.id sid = true := by
  unfold joinClassroomCore
  by_cases h : memberExists db cid sid = true
  · simp only [h, if_true]
    exact submissionExists_insertAll_of_mem (List.mem_map_of_mem _ ha) t1 db
  · simp only [h, if_false]
    exact submissionExists_insertAll_of_mem (List.mem_map_of_mem _ ha) t1 _

theorem joinClassroomCore_idem (cid sid t1 t2 : Nat) (db : DB) :
    joinClassroomCore cid sid t2 (joinClassroomCore cid sid t1 db)
      = joinClassroomCore cid sid t1 db := by
  apply joinClassroomCore_no_op
  · exact memberExists_joinClassroomCore_self cid sid t1 db
  · intro a ha
    rw [joinClassroomCore_assignments] at ha
    exact submissionExists_joinClassroomCore cid sid t1 ha

/-! ### Claim theorems -/

/-- C4: Idempotence of reconciliation — re-running
`ensure_assignment_submissions` or either join path from the state the
first run produced changes nothing: no duplicate submission rows are
created and every submission row is identical after the second run. -/
theorem claim4_reconcile_idempotent (aid cid sid lid t1 t2 : Nat)
    (lang : String) (db : DB) :
    ensure_assignment_submissions aid cid lang lid t2
        (ensure_assignment_submissions aid cid lang lid t1 db)
      = ensure_assignment_submissions aid cid lang lid t1 db
  ∧ join_class_by_code cid sid t2 (join_class_by_code cid sid t1 db)
      = join_class_by_code cid sid t1 db
  ∧ student_classroom_join cid sid t2 (student_classroom_join cid sid t1 db)
      = student_classroom_join cid sid t1 db := by
  refine ⟨ensure_assignment_submissions_idem aid cid lang lid t1 t2 db, ?_, ?_⟩
  · exact joinClassroomCore_idem cid sid t1 t2 db
  · exact joinClassroomCore_idem cid sid t1 t2 db

/-- C6: Streak transition rule — `update_streak` keeps the streak when
the user was already active today, increments it when the last activity
was yesterday, resets it to 1 otherwise (gap or first activity), and
always sets `last_active_date` to today; completion-date sequences
`[D, D+1, D+3]` and `[D, D]` give streak sequences `[1, 2, 1]` and
`[1, 1]`. -/
theorem claim6_streak_transition (streak : Nat) (lastActive : Option Int)
    (today D : Int) :
    (lastActive = some today → update_streak streak lastActive today = (streak, today))
  ∧ (lastActive = some (today - 1) →
      update_streak streak lastActive today = (streak + 1, today))
  ∧ (lastActive ≠ some today → lastActive ≠ some (today - 1) →
      update_streak streak lastActive today = (1, today))
  ∧ streakTrace [D, D + 1, D + 3] = [1, 2, 1]
  ∧ streakTrace [D, D] = [1, 1] := by
  refine ⟨?_, ?_, ?_, ?_, ?_⟩
  · intro h
    unfold update_streak
    rw [if_pos h]
  · intro h
    unfold update_streak
    have hne : lastActive ≠ some today := by
      rw [h]
      simp only [ne_eq, Option.some.injEq]
      omega
    rw [if_neg hne, if_pos h]
  · intro h1 h2
    unfold update_streak
    rw [if_neg h1, if_neg h2]
  · have e1 : update_streak 0 none D = (1, D) := by
      unfold update_streak
      simp
    have e2 : update_streak 1 (some D) (D + 1) = (2, D + 1) := by
      unfold update_streak
      rw [if_neg (by simp only [Option.some.injEq]; omega),
        if_pos (by simp only [Option.some.injEq]; omega)]
    have e3 : update_streak 2 (some (D + 1)) (D + 3) = (1, D + 3) := by
      unfold update_streak
      rw [if_neg (by simp only [Option.some.injEq]; omega),
        if_neg (by simp only [Option.some.injEq]; omega)]
    simp [streakTrace, streakStates, e1, e2, e3]
  · have e1 : update_streak 0 none D = (1, D) := by
      unfold update_streak
      simp
    have e2 : update_streak 1 (some D) D = (1, D) := by
      unfold update_streak
      rw [if_pos rfl]
    simp [streakTrace, streakStates, e1, e2]

/-- C8: Grade validation — a non-numeric grade (`none`) or an integer
outside 0–10 is rejected with `validationFailed` before any write (the
whole store, and in particular the prior `grade_out_of_10`, is returned
unchanged); an in-range grade on an existing submission (with its
assignment row) succeeds and sets that submission's `grade_out_of_10`
to the given value. -/
theorem claim8_grade_validation (db : DB) (aid sid : Nat) (v : Int) :
    teacher_grade_submission aid sid none db = (db, GradeOutcome.validationFailed)
  ∧ (v < 0 ∨ 10 < v →
      teacher_grade_submission aid sid (some v) db = (db, GradeOutcome.validationFailed))
  ∧ (0 ≤ v → v ≤ 10 → submissionExists db aid sid = true →
      (db.assignments.any fun a => a.id == aid) = true →
      (teacher_grade_submission aid sid (some v) db).2 = GradeOutcome.ok
    ∧ ∀ s ∈ (teacher_grade_submission aid sid (some v) db).1.submissions,
        (s.assignmentId == aid && s.studentId == sid) = true →
        s.gradeOutOf10 = some v) := by
  refine ⟨rfl, ?_, ?_⟩
  · intro h
    simp only [teacher_grade_submission]
    rw [if_pos h]
  · intro h0 h10 hex hasg
    have hrange : ¬ (v < 0 ∨ 10 < v) := by omega
    constructor
    · simp only [teacher_grade_submission]
      rw [if_neg hrange, if_pos (by rw [hex, hasg]; rfl)]
    · intro s hs hkey
      simp only [teacher_grade_submission] at hs
      rw [if_neg hrange, if_pos (by rw [hex, hasg]; rfl)] at hs
      simp only [List.mem_map] at hs
      obtain ⟨s0, -, rfl⟩ := hs
      by_cases hk : (s0.assignmentId == aid && s0.studentId == sid) = true
      · rw [if_pos hk]
      · rw [if_neg hk] at hkey ⊢
        exact absurd hkey hk

/-- A 50-question quiz whose first 29 questions have reference answer
"a" and the rest "b". -/
def quiz50 : List QuizQuestion :=
  (List.range 50).map fun i => ⟨"q", ["a", "b"], if i < 29 then "a" else "b"⟩

/-- The submitted form that answers "a" to every question. -/
def formAllA : Nat → Option String := fun _ => some "a"

set_option maxRecDepth 8000 in
/-- Counterexample to C10 as stated: on the 50-question quiz with 29
correct answers, `grade_quiz` scores `int((29 / 50) * 100)` in binary64
arithmetic — `29 / 50` rounds to the double nearest 0.58, whose product
with 100 rounds to 57.999999999999996, truncating to 57 — whereas
`floor(100 * 29 / 50) = 58`. -/
theorem claim10_counterexample :
    grade_quiz_score quiz50 formAllA = some 57
  ∧ countCorrect quiz50 formAllA = 29
  ∧ quiz50.length = 50
  ∧ 100 * 29 / 50 = 58
  ∧ (57 : Nat) ≠ 58 := by
  refine ⟨by decide, by decide, by decide, by decide, by decide⟩

set_option maxRecDepth 8000 in
set_option maxHeartbeats 2000000 in
/-- C10 (amended): Quiz scoring — on a non-empty quiz the score is
`int((correctCount / totalQuestions) * 100)` evaluated in IEEE-754
binary64 arithmetic (correctly rounded division, correctly rounded
multiplication by 100, truncation); this agrees with the exact floor
`100 * correctCount / totalQuestions` for every quiz with fewer than 50
questions, though not in general (29 of 50 scores 57, one below the
floor 58).  On an empty quiz the unguarded
`int((correct_count / total) * 100)` divides by zero (modelled as
`none`), so the operation is only well-defined under the precondition
that the quiz has at least one question. -/
theorem claim10_quiz_score (quiz : List QuizQuestion) (form : Nat → Option String) :
    (quiz ≠ [] → grade_quiz_score quiz form
        = some (b64ToNat (b64MulNat
            (roundB64 (countCorrect quiz form) quiz.length) 100)))
  ∧ grade_quiz_score [] form = none
  ∧ (∀ t < 50, ∀ c < t + 1,
      b64ToNat (b64MulNat (roundB64 c t) 100) = 100 * c / t)
  ∧ b64ToNat (b64MulNat (roundB64 29 50) 100) = 57 := by
  refine ⟨?_, rfl, by decide, by decide⟩
  intro h
  unfold grade_quiz_score
  rw [if_neg (by rw [List.length_eq_zero]; exact h)]

/-- Three-question quiz used by the C10 witness. -/
def quizW : List QuizQuestion :=
  [⟨"q0", ["a", "b"], "a"⟩, ⟨"q1", ["a", "b"], "b"⟩, ⟨"q2", ["a", "b"], "b"⟩]

/-- Witness for C10: answering "a" everywhere on the three-question quiz
scores 33 (the binary64 evaluation of `int((1 / 3) * 100)`, which here
coincides with `floor(100 * 1 / 3)` by the in-range agreement part). -/
theorem claim10_witness :
    grade_quiz_score quizW (fun _ => some "a") = some 33 := by
  have h := claim10_quiz_score quizW (fun _ => some "a")
  rw [h.1 (by decide)]
  decide

/-- Witness for C6: a last-active date of day 9 on day 10 increments the
streak, and dates `[0, 1, 3]` trace streaks `[1, 2, 1]`. -/
theorem claim6_witness :
    update_streak 4 (some 9) 10 = (5, 10) ∧ streakTrace [0, 1, 3] = [1, 2, 1] := by
  have h := claim6_streak_transition 4 (some 9) 10 0
  exact ⟨h.2.1 (by decide), h.2.2.2.1⟩

/-- Concrete store for the C8 witness: one assigned submission with a
prior grade of 7. -/
def dbC8 : DB :=
  ⟨[⟨1, 2⟩], [⟨1, 1, 3, "python"⟩], [],
    [⟨1, 2, SubStatus.assigned, none, none, some 7⟩]⟩

/-- Witness for C8: grades −1 and 11 are rejected leaving the store (and
the prior grade 7) untouched; grade 8 succeeds. -/
theorem claim8_witness :
    teacher_grade_submission 1 2 (some (-1)) dbC8 = (dbC8, GradeOutcome.validationFailed)
  ∧ teacher_grade_submission 1 2 (some 11) dbC8 = (dbC8, GradeOutcome.validationFailed)
  ∧ (teacher_grade_submission 1 2 (some 8) dbC8).2 = GradeOutcome.ok := by
  have hm := claim8_grade_validation dbC8 1 2 (-1)
  have h11 := claim8_grade_validation dbC8 1 2 11
  have h8 := claim8_grade_validation dbC8 1 2 8
  exact ⟨hm.2.1 (Or.inl (by decide)), h11.2.1 (Or.inr (by decide)),
    (h8.2.2 (by decide) (by decide) (by decide) (by decide)).1⟩

/-- Concrete store for C5: student 2 is a member of classroom 1 and has
a progress row for lesson 3 of "python" with `completed_at = 5`,
`score = 85`; no submission rows exist yet. -/
def dbC5 : DB :=
  ⟨[⟨1, 2⟩], [⟨1, 1, 3, "python"⟩], [⟨2, 3, "python", 5, 85, 100⟩], []⟩

/-- Counterexample to C5 as stated: reconciling assignment 1 at time 99
creates the submission with `completedAt = some 99`, the reconciliation
timestamp — not `some 5`, the value stored in the matching
ProgressRecord.  Only `score` is copied from the record. -/
theorem claim5_counterexample :
    (ensure_assignment_submissions 1 1 "python" 3 99 dbC5).submissions
      = [⟨1, 2, SubStatus.completed, some 99, some 85, none⟩]
  ∧ findProgress dbC5 2 3 "python" = some ⟨2, 3, "python", 5, 85, 100⟩
  ∧ ((ensure_assignment_submissions 1 1 "python" 3 99 dbC5).submissions.map
      (·.completedAt)) ≠ [some 5] := by
  refine ⟨by decide, by decide, by decide⟩

/-- C5 (amended): when reconciliation creates a submission row and a
ProgressRecord exists for the assignment's lesson, the new row is
completed with `score` copied from the record and `completedAt` set to
the reconciliation timestamp; with no ProgressRecord the row is assigned
with null `score`/`completedAt`. -/
theorem claim5_submission_creation_fields (db : DB) (aid sid : Nat)
    (lang : String) (lid now : Nat)
    (habs : submissionExists db aid sid = false) :
    (∀ p, findProgress db sid lid lang = some p →
      (insertSubmissionIfAbsent db aid sid lang lid now).submissions
        = db.submissions ++ [⟨aid, sid, SubStatus.completed, some now, some p.score, none⟩])
  ∧ (findProgress db sid lid lang = none →
      (insertSubmissionIfAbsent db aid sid lang lid now).submissions
        = db.submissions ++ [⟨aid, sid, SubStatus.assigned, none, none, none⟩]) := by
  constructor
  · intro p hp
    simp [insertSubmissionIfAbsent, hp, habs]
  · intro hp
    simp [insertSubmissionIfAbsent, hp, habs]

/-- Witness for C5 (amended), at the concrete C5 store. -/
theorem claim5_witness :
    (insertSubmissionIfAbsent dbC5 1 2 "python" 3 99).submissions
      = [⟨1, 2, SubStatus.completed, some 99, some 85, none⟩] := by
  have h := (claim5_submission_creation_fields dbC5 1 2 "python" 3 99 (by decide)).1
    ⟨2, 3, "python", 5, 85, 100⟩ (by decide)
  simpa using h

/-! ### The student stream feed -/

theorem mem_feed_visible {posts : List StreamPost} {cids : List Nat}
    {sid : Nat} {p : StreamPost}
    (hp : p ∈ get_stream_posts_for_student posts cids sid) :
    p ∈ posts ∧ streamPostVisible cids sid p = true := by
  unfold get_stream_posts_for_student at hp
  split at hp
  · cases hp
  · have h1 : p ∈ (posts.filter (streamPostVisible cids sid)).insertionSort postLe :=
      List.take_subset 30 _ hp
    rw [List.mem_insertionSort] at h1
    exact ⟨List.mem_of_mem_filter h1, List.of_mem_filter h1⟩

theorem streamPostVisible_grade {cids : List Nat} {sid : Nat} {p : StreamPost}
    (hv : streamPostVisible cids sid p = true) (hk : p.kind = "grade") :
    p.audience = "student" ∧ p.studentId = some sid := by
  unfold streamPostVisible at hv
  simp only [Bool.and_eq_true, Bool.or_eq_true, Bool.not_eq_true',
    Bool.and_eq_false_iff, beq_iff_eq, beq_eq_false_iff_ne, ne_eq] at hv
  obtain ⟨⟨-, hor⟩, hng⟩ := hv
  rcases hng with hng | hng
  · exact absurd hk hng
  · rcases hor with hcl | ⟨ha, hs⟩
    · exact absurd hcl hng
    · exact ⟨ha, hs⟩

/-- C9: Student feed read contract and grade privacy — the feed contains
only posts from the student's classrooms that are class-audience or
addressed to the student and are not class-audience grade posts; it is
sorted by creation time descending and capped at 30; when at most 30
posts qualify it contains every qualifying post; and every grade post it
contains is a student-audience post addressed to this student, so a
grade post addressed to a different student never appears. -/
theorem claim9_student_feed_contract (posts : List StreamPost)
    (cids : List Nat) (sid : Nat) :
    (∀ p ∈ get_stream_posts_for_student posts cids sid,
        p ∈ posts ∧ streamPostVisible cids sid p = true)
  ∧ (get_stream_posts_for_student posts cids sid).length ≤ 30
  ∧ (get_stream_posts_for_student posts cids sid).Sorted postLe
  ∧ ((posts.filter (streamPostVisible cids sid)).length ≤ 30 →
      ∀ p ∈ posts, streamPostVisible cids sid p = true →
        p ∈ get_stream_posts_for_student posts cids sid)
  ∧ (∀ p ∈ get_stream_posts_for_student posts cids sid, p.kind = "grade" →
        p.audience = "student" ∧ p.studentId = some sid)
  ∧ (∀ s1, s1 ≠ sid → ∀ p ∈ get_stream_posts_for_student posts cids sid,
        ¬(p.kind = "grade" ∧ p.audience = "student" ∧ p.studentId = some s1)) := by
  refine ⟨fun p hp => mem_feed_visible hp, ?_, ?_, ?_, ?_, ?_⟩
  · unfold get_stream_posts_for_student
    split
    · simp
    · exact List.length_take_le 30 _
  · unfold get_stream_posts_for_student
    split
    · exact List.sorted_nil
    · exact List.Pairwise.sublist (List.take_sublist 30 _)
        (List.sorted_insertionSort postLe _)
  · intro hlen p hp hv
    unfold get_stream_posts_for_student
    split
    · rename_i hcids
      rw [List.isEmpty_iff] at hcids
      subst hcids
      simp [streamPostVisible] at hv
    · rw [List.take_of_length_le]
      · rw [List.mem_insertionSort]
        exact List.mem_filter.mpr ⟨hp, hv⟩
      · rw [(List.perm_insertionSort postLe _).length_eq]
        exact hlen
  · intro p hp hk
    exact streamPostVisible_grade (mem_feed_visible hp).2 hk
  · rintro s1 hs1 p hp ⟨hk, -, hsid⟩
    have := (streamPostVisible_grade (mem_feed_visible hp).2 hk).2
    rw [hsid] at this
    exact hs1 (Option.some.inj this)

/-- Concrete posts for the C9 witness: a private grade post for student
1, a class assignment post, and a class-audience grade post, all in
classroom 1. -/
def postsW : List StreamPost :=
  [⟨1, 9, "grade", "student", some 1, 10⟩,
   ⟨1, 9, "assignment", "class", none, 5⟩,
   ⟨1, 9, "grade", "class", none, 7⟩]

/-- The class assignment post of `postsW`. -/
def postW2 : StreamPost := ⟨1, 9, "assignment", "class", none, 5⟩

/-- Witness for C9: in student 2's feed over classroom 1 the class
assignment post appears, and no feed entry is the grade post addressed
to student 1. -/
theorem claim9_witness :
    postW2 ∈ get_stream_posts_for_student postsW [1] 2
  ∧ ¬(postW2.kind = "grade" ∧ postW2.audience = "student"
        ∧ postW2.studentId = some 1) := by
  have h := claim9_student_feed_contract postsW [1] 2
  have hmem := h.2.2.2.1 (by decide) postW2 (by decide) (by decide)
  exact ⟨hmem, h.2.2.2.2.2 1 (by decide) postW2 hmem⟩

/-! ### The gradeOutOf10 frame property -/

/-- The view of the submissions table reconciliation must not disturb:
each row's key together with its teacher-set grade. -/
def gradeView (db : DB) : List (Nat × Nat × Option Int) :=
  db.submissions.map fun s => (s.assignmentId, s.studentId, s.gradeOutOf10)

theorem gradeView_insertAll (rows : List SubKeySpec) (now : Nat) (db : DB) :
    ∃ extra, gradeView (insertAll rows now db) = gradeView db ++ extra ∧
      ∀ e ∈ extra, e.2.2 = none := by
  obtain ⟨ex, he, hg⟩ := insertAll_submissions_extend rows now db
  refine ⟨ex.map fun s => (s.assignmentId, s.studentId, s.gradeOutOf10), ?_, ?_⟩
  · unfold gradeView
    rw [he, List.map_append]
  · simp only [List.mem_map]
    rintro e ⟨s, hs, rfl⟩
    exact hg s hs

theorem gradeView_complete_assignment_if_any (uid : Nat) (lang : String)
    (lid score now : Nat) (db : DB) :
    gradeView (complete_assignment_if_any uid lang lid score now db).1
      = gradeView db := by
  unfold complete_assignment_if_any gradeView
  simp only [List.map_map]
  apply List.map_congr_left
  intro s hs
  simp only [Function.comp_apply]
  split <;> rfl

theorem gradeView_joinClassroomCore (cid sid now : Nat) (db : DB) :
    ∃ extra, gradeView (joinClassroomCore cid sid now db) = gradeView db ++ extra ∧
      ∀ e ∈ extra, e.2.2 = none := by
  by_cases h : memberExists db cid sid = true
  · simp only [joinClassroomCore, h, if_true]
    exact gradeView_insertAll _ now db
  · simp only [joinClassroomCore, h, if_false]
    exact gradeView_insertAll _ now _

/-- C7: Frame property of reconciliation on the grade field — quiz
grading never changes any row's `grade_out_of_10` (nor its key), both
join paths and assignment creation only append rows whose
`grade_out_of_10` is null and leave the keys and grades of all existing
rows unchanged; and in the concrete replay scenario, setting a grade of
8 and then re-running the join-triggered reconciliation leaves the grade
at 8. -/
theorem claim7_grade_frame (db : DB) (uid cid sid aid lid score xp now : Nat)
    (lang : String) :
    gradeView (grade_quiz_sync uid lang lid score xp now db) = gradeView db
  ∧ (∃ extra, gradeView (student_classroom_join cid sid now db)
        = gradeView db ++ extra ∧ ∀ e ∈ extra, e.2.2 = none)
  ∧ (∃ extra, gradeView (join_class_by_code cid sid now db)
        = gradeView db ++ extra ∧ ∀ e ∈ extra, e.2.2 = none)
  ∧ (∃ extra, gradeView (teacher_create_assignment aid cid lid lang now db)
        = gradeView db ++ extra ∧ ∀ e ∈ extra, e.2.2 = none)
  ∧ (join_class_by_code 1 2 20
        (teacher_grade_submission 1 2 (some 8)
          (join_class_by_code 1 2 10
            (teacher_create_assignment 1 1 3 "python" 5
              ⟨[], [], [], []⟩))).1).submissions.map (·.gradeOutOf10)
      = [some 8] := by
  refine ⟨?_, ?_, ?_, ?_, by decide⟩
  · unfold grade_quiz_sync
    split
    · rw [gradeView_complete_assignment_if_any]
      rfl
    · rfl
  · exact gradeView_joinClassroomCore cid sid now db
  · exact gradeView_joinClassroomCore cid sid now db
  · unfold teacher_create_assignment ensure_assignment_submissions
    exact gradeView_insertAll _ now _

/-- Witness for C7: the concrete set-grade-then-rejoin scenario, read
off the claim itself. -/
theorem claim7_witness :
    (join_class_by_code 1 2 20
        (teacher_grade_submission 1 2 (some 8)
          (join_class_by_code 1 2 10
            (teacher_create_assignment 1 1 3 "python" 5
              ⟨[], [], [], []⟩))).1).submissions.map (·.gradeOutOf10)
      = [some 8] :=
  (claim7_grade_frame ⟨[], [], [], []⟩ 0 0 0 0 0 0 0 0 "x").2.2.2.2

/-! ### Monotonicity of completed submissions -/

/-- The store-level uniqueness constraint
`UNIQUE (assignment_id, student_id)` on `assignment_submissions`. -/
def subKeysNodup (db : DB) : Prop :=
  (db.submissions.map fun s => (s.assignmentId, s.studentId)).Nodup

theorem submissionMatchesCompletion_completed {db : DB} {uid : Nat}
    {lang : String} {lid : Nat} {s : Submission}
    (hc : s.status = SubStatus.completed) :
    submissionMatchesCompletion db uid lang lid s = false := by
  unfold submissionMatchesCompletion
  simp [hc]

theorem mem_complete_of_completed {db : DB} {s : Submission}
    (hs : s ∈ db.submissions) (hc : s.status = SubStatus.completed)
    (uid : Nat) (lang : String) (lid score now : Nat) :
    s ∈ (complete_assignment_if_any uid lang lid score now db).1.submissions := by
  unfold complete_assignment_if_any
  refine List.mem_map.mpr ⟨s, hs, ?_⟩
  rw [submissionMatchesCompletion_completed hc]
  simp

theorem mem_joinClassroomCore_submissions {db : DB} {s : Submission}
    (cid sid now : Nat) (hs : s ∈ db.submissions) :
    s ∈ (joinClassroomCore cid sid now db).submissions := by
  by_cases h : memberExists db cid sid = true
  · simp only [joinClassroomCore, h, if_true]
    exact mem_insertAll_submissions _ now hs
  · simp only [joinClassroomCore, h, if_false]
    exact mem_insertAll_submissions _ now hs

theorem find?_key_of_nodup {l : List Submission} {s : Submission}
    (hn : (l.map fun x => (x.assignmentId, x.studentId)).Nodup)
    (hs : s ∈ l) :
    (l.find? fun x =>
        x.assignmentId == s.assignmentId && x.studentId == s.studentId)
      = some s := by
  induction l with
  | nil => cases hs
  | cons a l ih =>
      rcases List.mem_cons.mp hs with rfl | hmem
      · rw [List.find?_cons_of_pos]
        simp
      · have hkey : (a.assignmentId, a.studentId) ≠ (s.assignmentId, s.studentId) := by
          intro h
          have hm : (s.assignmentId, s.studentId)
              ∈ l.map fun x => (x.assignmentId, x.studentId) :=
            List.mem_map_of_mem _ hmem
          rw [← h] at hm
          exact (List.nodup_cons.mp hn).1 hm
        rw [List.find?_cons_of_neg]
        · exact ih (List.nodup_cons.mp hn).2 hmem
        · simp only [Bool.and_eq_true, beq_iff_eq, not_and]
          intro h1 h2
          exact absurd (by rw [h1, h2]) hkey

theorem submissionStatusOf_of_mem {db : DB} {s : Submission}
    (hn : subKeysNodup db) (hs : s ∈ db.submissions) :
    submissionStatusOf db s.assignmentId s.studentId = some s.status := by
  unfold submissionStatusOf
  rw [find?_key_of_nodup hn hs]
  rfl

theorem mem_upsert_of_ne_key {d : DB} {s : Submission}
    (hs : s ∈ d.submissions) (aid sid now score : Nat)
    (h : ¬(s.assignmentId = aid ∧ s.studentId = sid)) :
    s ∈ (upsertCompletedSubmission d aid sid now score).submissions := by
  unfold upsertCompletedSubmission
  split
  · refine List.mem_map.mpr ⟨s, hs, ?_⟩
    rw [if_neg]
    simp only [Bool.and_eq_true, beq_iff_eq, not_and]
    intro h1 h2
    exact absurd ⟨h1, h2⟩ h
  · exact List.mem_append_left _ hs

theorem foldl_backfill_mem {uid now : Nat} {db : DB} {s : Submission}
    (rows : List (Assignment × Option SubStatus)) :
    ∀ d : DB, s ∈ d.submissions →
      (∀ r ∈ rows, r.2 ≠ some SubStatus.completed →
        ¬(s.assignmentId = r.1.id ∧ s.studentId = uid)) →
      s ∈ (rows.foldl
        (fun d row =>
          if row.2 = some SubStatus.completed then d
          else
            match findProgress db uid row.1.lessonId row.1.lessonLang with
            | some p => upsertCompletedSubmission d row.1.id uid now p.score
            | none => d)
        d).submissions := by
  induction rows with
  | nil => exact fun d hd _ => hd
  | cons r rs ih =>
      intro d hd hprop
      rw [List.foldl_cons]
      apply ih
      · by_cases hst : r.2 = some SubStatus.completed
        · rw [if_pos hst]
          exact hd
        · rw [if_neg hst]
          rcases hp : findProgress db uid r.1.lessonId r.1.lessonLang with - | p
          · exact hd
          · exact mem_upsert_of_ne_key hd _ _ _ _
              (hprop r (List.mem_cons_self r rs) hst)
      · exact fun x hx => hprop x (List.mem_cons_of_mem r hx)

theorem mem_backfill_of_completed {db : DB} {s : Submission}
    (hn : subKeysNodup db) (hs : s ∈ db.submissions)
    (hc : s.status = SubStatus.completed) (uid now : Nat) :
    s ∈ (student_classroom_backfill uid now db).submissions := by
  unfold student_classroom_backfill
  apply foldl_backfill_mem _ db hs
  intro r hr hne
  rw [List.mem_map] at hr
  obtain ⟨a, -, rfl⟩ := hr
  rintro ⟨h1, h2⟩
  apply hne
  show submissionStatusOf db a.id uid = some SubStatus.completed
  rw [← h1, ← h2, submissionStatusOf_of_mem hn hs, hc]

/-- C3: Monotonicity of completion — a submission row that is already
completed survives, bit-for-bit (status, completedAt, score and grade
included), every reconciliation call: quiz grading, both join paths,
assignment creation, and the student-classroom view backfill.  No path
reverts it to assigned or rewrites its completedAt/score. -/
theorem claim3_completion_monotonic (db : DB) (s : Submission)
    (uid cid sid aid lid score xp now : Nat) (lang : String)
    (hn : subKeysNodup db) (hs : s ∈ db.submissions)
    (hc : s.status = SubStatus.completed) :
    s ∈ (grade_quiz_sync uid lang lid score xp now db).submissions
  ∧ s ∈ (student_classroom_join cid sid now db).submissions
  ∧ s ∈ (join_class_by_code cid sid now db).submissions
  ∧ s ∈ (teacher_create_assignment aid cid lid lang now db).submissions
  ∧ s ∈ (student_classroom_backfill uid now db).submissions := by
  refine ⟨?_, ?_, ?_, ?_, ?_⟩
  · unfold grade_quiz_sync
    split
    · exact mem_complete_of_completed hs hc uid lang lid score now
    · exact hs
  · exact mem_joinClassroomCore_submissions cid sid now hs
  · exact mem_joinClassroomCore_submissions cid sid now hs
  · unfold teacher_create_assignment ensure_assignment_submissions
    exact mem_insertAll_submissions _ now hs
  · exact mem_backfill_of_completed hn hs hc uid now

/-- Concrete store for the C3 witness: one completed submission with a
recorded score. -/
def dbC3 : DB :=
  ⟨[⟨1, 2⟩], [⟨1, 1, 3, "python"⟩], [⟨2, 3, "python", 5, 85, 100⟩],
    [⟨1, 2, SubStatus.completed, some 6, some 85, none⟩]⟩

/-- Witness for C3 at a concrete completed row: the row survives a
subsequent quiz grading and a re-join unchanged. -/
theorem claim3_witness :
    (⟨1, 2, SubStatus.completed, some 6, some 85, none⟩ : Submission)
      ∈ (grade_quiz_sync 2 "python" 3 90 100 50 dbC3).submissions
  ∧ (⟨1, 2, SubStatus.completed, some 6, some 85, none⟩ : Submission)
      ∈ (join_class_by_code 1 2 50 dbC3).submissions := by
  have h := claim3_completion_monotonic dbC3
    ⟨1, 2, SubStatus.completed, some 6, some 85, none⟩
    2 1 2 1 3 90 100 50 "python" (by unfold subKeysNodup; decide) (by decide) (by decide)
  exact ⟨h.1, h.2.2.1⟩

/-! ### The derived-status invariant -/

/-- The store-level `PRIMARY KEY` on `assignments`: ids are unique. -/
def assignmentIdsNodup (db : DB) : Prop :=
  (db.assignments.map (·.id)).Nodup

/-- Referential well-formedness maintained by the application: every
submission row points at an existing assignment whose classroom the
submitting student is a member of (submissions are only ever created for
members, and classroom deletion cascades over assignments, submissions
and memberships together). -/
def submissionScoped (db : DB) : Prop :=
  ∀ s ∈ db.submissions, ∃ a ∈ db.assignments, a.id = s.assignmentId ∧
    memberExists db a.classroomId s.studentId = true

/-- The derived-status invariant of the spec: a submission is completed
exactly when a progress row exists for its student and its assignment's
lesson. -/
def SubInv (db : DB) : Prop :=
  ∀ s ∈ db.submissions, ∀ a ∈ db.assignments, a.id = s.assignmentId →
    (s.status = SubStatus.completed ↔
      (findProgress db s.studentId a.lessonId a.lessonLang).isSome = true)

theorem isSome_find?_eq_any {α : Type} (p : α → Bool) (l : List α) :
    (l.find? p).isSome = l.any p := by
  induction l with
  | nil => rfl
  | cons a l ih => cases h : p a <;> simp [List.find?_cons, h, ih]

theorem findProgress_isSome_eq_any (db : DB) (x l : Nat) (g : String) :
    (findProgress db x l g).isSome = db.progress.any fun p =>
      p.studentId == x && p.lessonLang == g && p.lessonId == l := by
  unfold findProgress
  exact isSome_find?_eq_any _ _

theorem assignment_eq_of_ids {db : DB} (hids : assignmentIdsNodup db)
    {a b : Assignment} (ha : a ∈ db.assignments) (hb : b ∈ db.assignments)
    (h : a.id = b.id) : a = b :=
  List.inj_on_of_nodup_map hids ha hb h

theorem classroomHasMember_of_memberExists {db : DB} {cid sid : Nat}
    (h : memberExists db cid sid = true) :
    classroomHasMember db cid = true := by
  unfold memberExists at h
  unfold classroomHasMember
  rw [List.any_eq_true] at h ⊢
  obtain ⟨m, hm, hmp⟩ := h
  rw [Bool.and_eq_true] at hmp
  exact ⟨m, hm, hmp.1⟩

theorem subInv_insertSubmissionIfAbsent {db : DB} {a : Assignment}
    (ha : a ∈ db.assignments) (sid now : Nat)
    (hids : assignmentIdsNodup db) (hinv : SubInv db) :
    SubInv (insertSubmissionIfAbsent db a.id sid a.lessonLang a.lessonId now) := by
  unfold insertSubmissionIfAbsent
  split
  · exact hinv
  · intro s hs a' ha' haid
    rcases List.mem_append.mp hs with h | h
    · exact hinv s h a' ha' haid
    · have hrow := List.mem_singleton.mp h
      subst hrow
      have ha'a : a' = a := by
        refine assignment_eq_of_ids hids ?_ ha haid
        exact ha'
      subst ha'a
      show (if (findProgress db sid a'.lessonId a'.lessonLang).isSome = true
          then SubStatus.completed else SubStatus.assigned) = SubStatus.completed
        ↔ (findProgress db sid a'.lessonId a'.lessonLang).isSome = true
      by_cases hfp : (findProgress db sid a'.lessonId a'.lessonLang).isSome = true
      · rw [if_pos hfp]
        simp [hfp]
      · rw [if_neg hfp]
        simp [hfp]

theorem subInv_insertAll {rows : List SubKeySpec} :
    ∀ {db : DB}, (∀ r ∈ rows, ∃ a ∈ db.assignments, a.id = r.assignmentId ∧
        a.lessonId = r.lessonId ∧ a.lessonLang = r.lessonLang) →
      ∀ now : Nat, assignmentIdsNodup db → SubInv db →
      SubInv (insertAll rows now db) := by
  induction rows with
  | nil => exact fun h _ _ hinv => hinv
  | cons r rs ih =>
      intro db hrows now hids hinv
      simp only [insertAll, List.foldl_cons]
      obtain ⟨a, ha, h1, h2, h3⟩ := hrows r (List.mem_cons_self r rs)
      have hstep : SubInv (insertSubmissionIfAbsent db r.assignmentId
          r.studentId r.lessonLang r.lessonId now) := by
        rw [← h1, ← h2, ← h3]
        exact subInv_insertSubmissionIfAbsent ha r.studentId now hids hinv
      have hasg := insertSubmissionIfAbsent_assignments db r.assignmentId
        r.studentId r.lessonLang r.lessonId now
      exact ih
        (fun x hx => by
          rw [hasg]
          exact hrows x (List.mem_cons_of_mem r hx))
        now
        (by
          unfold assignmentIdsNodup
          rw [hasg]
          exact hids)
        hstep

theorem subInv_joinClassroomCore (cid sid now : Nat) {db : DB}
    (hids : assignmentIdsNodup db) (hinv : SubInv db) :
    SubInv (joinClassroomCore cid sid now db) := by
  by_cases h : memberExists db cid sid = true
  · simp only [joinClassroomCore, h, if_true]
    apply subInv_insertAll ?_ now hids hinv
    intro r hr
    rw [List.mem_map] at hr
    obtain ⟨a, ha, rfl⟩ := hr
    exact ⟨a, List.mem_of_mem_filter ha, rfl, rfl, rfl⟩
  · simp only [joinClassroomCore, h, if_false]
    apply subInv_insertAll ?_ now ?_ ?_
    · intro r hr
      rw [List.mem_map] at hr
      obtain ⟨a, ha, rfl⟩ := hr
      exact ⟨a, List.mem_of_mem_filter ha, rfl, rfl, rfl⟩
    · exact hids
    · exact hinv

theorem subInv_teacher_create_assignment {db : DB} (aid cid lid : Nat)
    (lang : String) (now : Nat)
    (hids : assignmentIdsNodup db) (hscope : submissionScoped db)
    (hinv : SubInv db) (hfresh : ∀ a ∈ db.assignments, a.id ≠ aid) :
    SubInv (teacher_create_assignment aid cid lid lang now db) := by
  unfold teacher_create_assignment
  have hids1 : assignmentIdsNodup
      { db with assignments := db.assignments ++ [⟨aid, cid, lid, lang⟩] } := by
    unfold assignmentIdsNodup
    rw [List.map_append]
    refine List.Nodup.append hids ?_ ?_
    · exact List.nodup_singleton aid
    · show (db.assignments.map (·.id)).Disjoint [aid]
      rw [List.disjoint_singleton]
      intro hmem
      rw [List.mem_map] at hmem
      obtain ⟨a, ha, haid⟩ := hmem
      exact hfresh a ha haid
  have hinv1 : SubInv
      { db with assignments := db.assignments ++ [⟨aid, cid, lid, lang⟩] } := by
    intro s hs a' ha' haid
    rcases List.mem_append.mp ha' with h | h
    · exact hinv s hs a' h haid
    · exfalso
      have hrow := List.mem_singleton.mp h
      subst hrow
      obtain ⟨a0, ha0, h0, -⟩ := hscope s hs
      exact hfresh a0 ha0 (by rw [h0, ← haid])
  have hmem : (⟨aid, cid, lid, lang⟩ : Assignment)
      ∈ ({ db with assignments := db.assignments ++ [⟨aid, cid, lid, lang⟩] } : DB).assignments :=
    List.mem_append_right _ (List.mem_singleton_self _)
  unfold ensure_assignment_submissions
  apply subInv_insertAll ?_ now hids1 hinv1
  intro r hr
  rw [List.mem_map] at hr
  obtain ⟨sid, -, rfl⟩ := hr
  exact ⟨⟨aid, cid, lid, lang⟩, hmem, rfl, rfl, rfl⟩

theorem subInv_progress_append_complete {db : DB} (uid lid : Nat) (lang : String)
    (score xp now now2 : Nat)
    (hids : assignmentIdsNodup db) (hscope : submissionScoped db)
    (hinv : SubInv db) :
    SubInv (complete_assignment_if_any uid lang lid score now2
      { db with progress := db.progress ++ [⟨uid, lid, lang, now, score, xp⟩] }).1 := by
  set P : ProgressRecord := ⟨uid, lid, lang, now, score, xp⟩ with hPdef
  set db1 : DB := { db with progress := db.progress ++ [P] } with hdb1
  have hfp : ∀ x l g, (findProgress db1 x l g).isSome =
      ((findProgress db x l g).isSome
        || (P.studentId == x && P.lessonLang == g && P.lessonId == l)) := by
    intro x l g
    rw [findProgress_isSome_eq_any, findProgress_isSome_eq_any]
    show (db.progress ++ [P]).any _ = _
    rw [List.any_append]
    simp only [List.any_cons, List.any_nil, Bool.or_false]
  intro s' hs' a ha haid
  have ha2 : a ∈ db.assignments := ha
  have hs2 : s' ∈ db1.submissions.map (fun s =>
      if submissionMatchesCompletion db1 uid lang lid s then
        { s with status := SubStatus.completed, completedAt := some now2,
                 score := some score }
      else s) := hs'
  rw [List.mem_map] at hs2
  obtain ⟨s, hs, hfs⟩ := hs2
  have hsdb : s ∈ db.submissions := hs
  by_cases hc : submissionMatchesCompletion db1 uid lang lid s = true
  · rw [if_pos hc] at hfs
    subst hfs
    have hmatch := hc
    unfold submissionMatchesCompletion at hmatch
    simp only [Bool.and_eq_true, List.any_eq_true, beq_iff_eq] at hmatch
    obtain ⟨⟨husr, -⟩, a2, ha2', hprops⟩ := hmatch
    obtain ⟨⟨⟨hid2, hlid2⟩, hlang2⟩, -⟩ := hprops
    have ha2db : a2 ∈ db.assignments := ha2'
    have haa2 : a = a2 := by
      apply assignment_eq_of_ids hids ha2 ha2db
      rw [hid2]
      exact haid
    show SubStatus.completed = SubStatus.completed ↔
      (findProgress db1 s.studentId a.lessonId a.lessonLang).isSome = true
    rw [hfp]
    have hPs : (P.studentId == s.studentId) = true := by
      show (uid == s.studentId) = true
      rw [husr]
      exact beq_self_eq_true uid
    have hPg : (P.lessonLang == a.lessonLang) = true := by
      show (lang == a.lessonLang) = true
      rw [haa2, hlang2]
      exact beq_self_eq_true lang
    have hPl : (P.lessonId == a.lessonId) = true := by
      show (lid == a.lessonId) = true
      rw [haa2, hlid2]
      exact beq_self_eq_true lid
    rw [hPs, hPg, hPl]
    simp
  · rw [if_neg hc] at hfs
    subst hfs
    have haid2 : a.id = s.assignmentId := haid
    show s.status = SubStatus.completed ↔
      (findProgress db1 s.studentId a.lessonId a.lessonLang).isSome = true
    rw [hfp]
    by_cases hu : s.studentId = uid
    · by_cases hst : s.status = SubStatus.completed
      · have hold := (hinv s hsdb a ha2 haid2).mp hst
        rw [hold]
        simp [hst]
      · have hold : (findProgress db s.studentId a.lessonId a.lessonLang).isSome = false := by
          rw [← Bool.not_eq_true]
          intro habs
          exact hst ((hinv s hsdb a ha2 haid2).mpr habs)
        have hPpart : (P.studentId == s.studentId && P.lessonLang == a.lessonLang
            && P.lessonId == a.lessonId) = false := by
          by_contra habs
          rw [Bool.not_eq_false, Bool.and_eq_true, Bool.and_eq_true] at habs
          obtain ⟨⟨hb1, hb2⟩, hb3⟩ := habs
          rw [beq_iff_eq] at hb2 hb3
          apply hc
          unfold submissionMatchesCompletion
          obtain ⟨a0, ha0, h0, hm⟩ := hscope s hsdb
          have ha0a : a0 = a := by
            apply assignment_eq_of_ids hids ha0 ha2
            rw [h0, haid2]
          rw [ha0a] at hm
          have hmem1 : classroomHasMember db1 a.classroomId = true := by
            show classroomHasMember db a.classroomId = true
            exact classroomHasMember_of_memberExists hm
          simp only [Bool.and_eq_true, List.any_eq_true, beq_iff_eq,
            Bool.not_eq_true']
          refine ⟨⟨hu, ?_⟩, a, ha2, ⟨⟨⟨haid2, ?_⟩, ?_⟩, hmem1⟩⟩
          · rw [beq_eq_false_iff_ne]
            exact hst
          · show a.lessonId = lid
            have : P.lessonLang = a.lessonLang := hb2
            have h3 : P.lessonId = a.lessonId := hb3
            exact h3.symm
          · show a.lessonLang = lang
            exact hb2.symm
        rw [hold, hPpart]
        simp [hst]
    · have hPs : (P.studentId == s.studentId) = false := by
        show (uid == s.studentId) = false
        rw [beq_eq_false_iff_ne]
        exact fun h => hu h.symm
      rw [hPs]
      simp only [Bool.false_and, Bool.or_false]
      exact hinv s hsdb a ha2 haid2

theorem subInv_grade_quiz_sync {db : DB} (uid : Nat) (lang : String)
    (lid score xp now : Nat) (hids : assignmentIdsNodup db)
    (hscope : submissionScoped db) (hinv : SubInv db) :
    SubInv (grade_quiz_sync uid lang lid score xp now db) := by
  unfold grade_quiz_sync
  split
  · exact subInv_progress_append_complete uid lid lang score xp now now
      hids hscope hinv
  · exact hinv

theorem subInv_teacher_grade_submission {db : DB} (aid sid : Nat)
    (grade : Option Int) (hinv : SubInv db) :
    SubInv (teacher_grade_submission aid sid grade db).1 := by
  cases grade with
  | none => exact hinv
  | some v =>
      simp only [teacher_grade_submission]
      by_cases hr : v < 0 ∨ 10 < v
      · rw [if_pos hr]
        exact hinv
      · rw [if_neg hr]
        by_cases hex : (submissionExists db aid sid
            && db.assignments.any fun a => a.id == aid) = true
        · rw [if_pos hex]
          intro s' hs' a ha haid
          have hs2 : s' ∈ db.submissions.map (fun s =>
              if s.assignmentId == aid && s.studentId == sid then
                { s with gradeOutOf10 := some v } else s) := hs'
          rw [List.mem_map] at hs2
          obtain ⟨s, hs, hfs⟩ := hs2
          by_cases hk : (s.assignmentId == aid && s.studentId == sid) = true
          · rw [if_pos hk] at hfs
            subst hfs
            have haid2 : a.id = s.assignmentId := haid
            exact hinv s hs a ha haid2
          · rw [if_neg hk] at hfs
            subst hfs
            exact hinv s hs a ha haid
        · rw [if_neg hex]
          exact hinv

/-- C2: Derived-status invariant — each of the five write paths (quiz
grading, classroom join, join-by-code, assignment creation, teacher
grading) preserves the invariant that a submission row is completed
exactly when a ProgressRecord exists for its student and its
assignment's lesson, given the store constraints (unique assignment
ids) and the application's referential scoping of submissions (every
submission points at an existing assignment whose classroom its student
joined), with the created assignment's id fresh. -/
theorem claim2_derived_status_invariant (db : DB)
    (uid cid sid aid lid score xp now : Nat) (lang : String)
    (gaid gsid : Nat) (grade : Option Int)
    (hids : assignmentIdsNodup db) (hscope : submissionScoped db)
    (hinv : SubInv db) (hfresh : ∀ a ∈ db.assignments, a.id ≠ aid) :
    SubInv (grade_quiz_sync uid lang lid score xp now db)
  ∧ SubInv (student_classroom_join cid sid now db)
  ∧ SubInv (join_class_by_code cid sid now db)
  ∧ SubInv (teacher_create_assignment aid cid lid lang now db)
  ∧ SubInv (teacher_grade_submission gaid gsid grade db).1 :=
  ⟨subInv_grade_quiz_sync uid lang lid score xp now hids hscope hinv,
    subInv_joinClassroomCore cid sid now hids hinv,
    subInv_joinClassroomCore cid sid now hids hinv,
    subInv_teacher_create_assignment aid cid lid lang now hids hscope hinv hfresh,
    subInv_teacher_grade_submission gaid gsid grade hinv⟩

/-- Witness for C2 at the concrete store `dbC3`: the invariant survives
a quiz pass on a new lesson and the creation of a fresh assignment. -/
theorem claim2_witness :
    SubInv (grade_quiz_sync 2 "python" 4 90 100 50 dbC3)
  ∧ SubInv (teacher_create_assignment 7 1 4 "python" 50 dbC3) := by
  have h := claim2_derived_status_invariant dbC3 2 1 2 7 4 90 100 50 "python" 1 2 (some 8)
    (by unfold assignmentIdsNodup; decide)
    (by unfold submissionScoped; decide)
    (by unfold SubInv; decide)
    (by decide)
  exact ⟨h.1, h.2.2.2.1⟩

/-- C1: Order-independence of reconciliation — starting from an empty
store, the three events (teacher creates assignment `aid` for lesson
`(lang, lid)` in classroom `cid`; student `sid` joins `cid`; `sid`
passes the lesson with a passing quiz score) leave the submission table
holding exactly the one row for `(aid, sid)` with `status = completed`
and `score` equal to the quiz score, in every one of the 3! event
orderings (the i-th event of each ordering runs at time `ti`). -/
theorem claim1_reconcile_order_independence
    (aid cid lid sid score xp t1 t2 t3 : Nat) (lang : String)
    (h : 70 ≤ score) :
    (grade_quiz_sync sid lang lid score xp t3
        (join_class_by_code cid sid t2
          (teacher_create_assignment aid cid lid lang t1 ⟨[], [], [], []⟩))).submissions
      = [⟨aid, sid, SubStatus.completed, some t3, some score, none⟩]
  ∧ (join_class_by_code cid sid t3
        (grade_quiz_sync sid lang lid score xp t2
          (teacher_create_assignment aid cid lid lang t1 ⟨[], [], [], []⟩))).submissions
      = [⟨aid, sid, SubStatus.completed, some t3, some score, none⟩]
  ∧ (grade_quiz_sync sid lang lid score xp t3
        (teacher_create_assignment aid cid lid lang t2
          (join_class_by_code cid sid t1 ⟨[], [], [], []⟩))).submissions
      = [⟨aid, sid, SubStatus.completed, some t3, some score, none⟩]
  ∧ (teacher_create_assignment aid cid lid lang t3
        (grade_quiz_sync sid lang lid score xp t2
          (join_class_by_code cid sid t1 ⟨[], [], [], []⟩))).submissions
      = [⟨aid, sid, SubStatus.completed, some t3, some score, none⟩]
  ∧ (join_class_by_code cid sid t3
        (teacher_create_assignment aid cid lid lang t2
          (grade_quiz_sync sid lang lid score xp t1 ⟨[], [], [], []⟩))).submissions
      = [⟨aid, sid, SubStatus.completed, some t3, some score, none⟩]
  ∧ (teacher_create_assignment aid cid lid lang t3
        (join_class_by_code cid sid t2
          (grade_quiz_sync sid lang lid score xp t1 ⟨[], [], [], []⟩))).submissions
      = [⟨aid, sid, SubStatus.completed, some t3, some score, none⟩] := by
  refine ⟨?_, ?_, ?_, ?_, ?_, ?_⟩ <;>
    simp [teacher_create_assignment, ensure_assignment_submissions, insertAll,
      insertSubmissionIfAbsent, joinClassroomCore, join_class_by_code, memberExists,
      submissionExists, findProgress, grade_quiz_sync, complete_assignment_if_any,
      submissionMatchesCompletion, classroomHasMember, h]

/-- Witness for C1: the create → join → pass ordering with concrete ids
and score 85 ends in the single completed submission with score 85. -/
theorem claim1_witness :
    (grade_quiz_sync 2 "python" 3 85 100 30
      (join_class_by_code 1 2 20
        (teacher_create_assignment 1 1 3 "python" 10 ⟨[], [], [], []⟩))).submissions
    = [⟨1, 2, SubStatus.completed, some 30, some 85, none⟩] :=
  (claim1_reconcile_order_independence 1 1 3 2 85 100 10 20 30 "python" (by decide)).1
